import Mathlib

/-!
# Verification of `scripts/render.py` (PDF → PNG renderer)

Shallow embedding of the two functions of `scripts/render.py`:

* `parse_pages(pages_arg, num_pages)` — resolves a comma-separated page
  specification (`"1,3-5,7"`) against a page count, returning the sorted,
  duplicate-free list of selected 1-based page numbers, or raising
  `ValueError` for malformed / out-of-range tokens;
* `render(pdf_path, dpi, pages, grayscale)` — opens the document, resolves
  the page list, writes one PNG per selected page into a folder named after
  the file, archives a byte-for-byte copy of the source next to them unless
  one already exists, closes the document and returns the list of PNG paths.

Python strings are modelled as `String` / `List Char`; the file system as an
association list from path to byte content; the fitz document handle as a
pair of `Bool` flags (`docOpened` / `docClosed`) recorded by the embedding.
`dpi` and `grayscale` only affect pixel content, which is abstracted by the
`pngBytes` parameter of the environment, so they are not model inputs.
-/

namespace RenderPy

instance instDecEqExcept {ε α : Type _} [DecidableEq ε] [DecidableEq α] :
    DecidableEq (Except ε α) := fun
  | .error e₁, .error e₂ =>
    if h : e₁ = e₂ then .isTrue (by rw [h]) else .isFalse (by simp [h])
  | .error _, .ok _ => .isFalse (by simp)
  | .ok _, .error _ => .isFalse (by simp)
  | .ok a₁, .ok a₂ =>
    if h : a₁ = a₂ then .isTrue (by rw [h]) else .isFalse (by simp [h])

/-! ## Python string primitives -/

/-- Python `s.split(c)` for a one-character separator: splits at *every*
occurrence, keeping empty pieces (`"a,,b".split(",") == ["a","","b"]`,
`"".split(",") == [""]`). -/
def splitOnChar (c : Char) : List Char → List (List Char)
  | [] => [[]]
  | x :: xs =>
    if x = c then
      [] :: splitOnChar c xs
    else
      match splitOnChar c xs with
      | [] => [[x]]
      | h :: t => (x :: h) :: t

/-- Python `s.strip()` (ASCII whitespace). -/
def pyStrip (l : List Char) : List Char :=
  ((l.dropWhile Char.isWhitespace).reverse.dropWhile Char.isWhitespace).reverse

/-- Digit tail of a Python integer literal: `(digit | '_' digit)*`, where an
underscore must sit between two digits. Accumulates the value. -/
def digitsCore : List Char → Nat → Option Nat
  | [], acc => some acc
  | '_' :: c :: rest, acc =>
    if c.isDigit then digitsCore rest (acc * 10 + (c.toNat - '0'.toNat)) else none
  | c :: rest, acc =>
    if c.isDigit then digitsCore rest (acc * 10 + (c.toNat - '0'.toNat)) else none

/-- Unsigned part of Python `int(str)`: a nonempty digit run, with single
underscores allowed between digits. -/
def pyIntCore : List Char → Option Nat
  | [] => none
  | c :: rest => if c.isDigit then digitsCore rest (c.toNat - '0'.toNat) else none

/-- Python `int(str)` (base 10, ASCII): strips whitespace, allows one leading
sign, then a digit run with optional single underscores between digits.
`none` models the `ValueError` that `int` raises otherwise. -/
def pyInt (l : List Char) : Option Int :=
  match pyStrip l with
  | '+' :: rest => (pyIntCore rest).map Int.ofNat
  | '-' :: rest => (pyIntCore rest).map (fun n => -(n : Int))
  | t => (pyIntCore t).map Int.ofNat

/-! ## `parse_pages` -/

/-- The `ValueError`s `parse_pages` can raise, distinguished by message:
`intParse s` is the error of `int(s)` on a non-numeric string, `invalidNumber p`
is `f"Invalid page number: {p}"`, `invalidRange part` is
`f"Invalid page range: {part}"`. -/
inductive PageErr where
  | intParse (s : String)
  | invalidNumber (p : Int)
  | invalidRange (part : String)
  deriving DecidableEq, Repr

/-- One iteration of the `for part in pages_arg.split(",")` loop body of
`parse_pages`, up to the set update: strips the token, dispatches on the
presence of a hyphen, and returns the set of pages the token denotes (to be
unioned into `out`) or the `ValueError` the iteration raises. -/
def tokenPages (numPages : Nat) (part : List Char) : Except PageErr (Finset Nat) :=
  let t := pyStrip part
  if '-' ∈ t then
    let a? := pyInt (t.takeWhile (· ≠ '-'))
    let b? := pyInt ((t.dropWhile (· ≠ '-')).tail)
    match a? with
    | none => .error (.intParse ⟨t.takeWhile (· ≠ '-')⟩)
    | some a =>
      match b? with
      | none => .error (.intParse ⟨(t.dropWhile (· ≠ '-')).tail⟩)
      | some b =>
        if a < 1 ∨ b < 1 ∨ (numPages : Int) < a ∨ (numPages : Int) < b ∨ b < a then
          .error (.invalidRange ⟨t⟩)
        else
          .ok (Finset.Icc a.toNat b.toNat)
  else
    match pyInt t with
    | none => .error (.intParse ⟨t⟩)
    | some p =>
      if p < 1 ∨ (numPages : Int) < p then
        .error (.invalidNumber p)
      else
        .ok {p.toNat}

/-- The `for` loop of `parse_pages`, folding the token sets into `out`. -/
def parsePagesLoop (numPages : Nat) : List (List Char) → Finset Nat → Except PageErr (Finset Nat)
  | [], out => .ok out
  | part :: rest, out =>
    match tokenPages numPages part with
    | .error e => .error e
    | .ok ps => parsePagesLoop numPages rest (out ∪ ps)

/-- Function `parse_pages(pages_arg, num_pages)`: `None` or `""` selects all pages
(`list(range(1, num_pages + 1))`); otherwise the comma-separated tokens are
resolved and unioned, and `sorted(out)` is returned. -/
def parse_pages (pagesArg : Option String) (numPages : Nat) : Except PageErr (List Nat) :=
  match pagesArg with
  | none => .ok (List.range' 1 numPages)
  | some s =>
    if s = "" then
      .ok (List.range' 1 numPages)
    else
      (parsePagesLoop numPages (splitOnChar ',' s.data) ∅).map
        (fun out => out.sort (· ≤ ·))

/-! ## `os.path` primitives (POSIX) -/

/-- Characters of `l` after the last occurrence of `c` (all of `l` if `c` is
absent). -/
def afterLast (c : Char) (l : List Char) : List Char :=
  (l.reverse.takeWhile (· ≠ c)).reverse

/-- Characters of `l` up to and including the last occurrence of `c` (`[]` if
`c` is absent). -/
def uptoLast (c : Char) (l : List Char) : List Char :=
  (l.reverse.dropWhile (· ≠ c)).reverse

/-- Python `os.path.basename(p)`: the part after the last `'/'`. -/
def os_path_basename (p : String) : String :=
  ⟨afterLast '/' p.data⟩

/-- Python `os.path.splitext(p)`: splits off the extension at the last `'.'` of the
final path component, unless every character before that dot (within the
component) is itself a dot (so `".bashrc"` and `"a/..pdf"` have no
extension). -/
def os_path_splitext (p : String) : String × String :=
  let dir := uptoLast '/' p.data
  let name := afterLast '/' p.data
  let extRev := name.reverse.takeWhile (· ≠ '.')
  match name.reverse.dropWhile (· ≠ '.') with
  | [] => (p, "")
  | _ :: rootRev =>
    if rootRev.any (· ≠ '.') then
      (⟨dir ++ rootRev.reverse⟩, ⟨'.' :: extRev.reverse⟩)
    else
      (p, "")

/-- Python `os.path.join(a, b)` (POSIX, one component). -/
def os_path_join (a b : String) : String :=
  if b.data.head? = some '/' then b
  else if a = "" ∨ a.data.getLast? = some '/' then a ++ b
  else a ++ "/" ++ b

/-- The Python format specifier `{n:02d}` for a natural number: decimal,
left-padded with zeros to at least two digits. -/
def pyFormat02 (n : Nat) : String :=
  let s := toString n
  ⟨List.replicate (2 - s.length) '0' ++ s.data⟩

/-! ## File-system model

The file system is an association list from path to byte content; a write
prepends and lookup returns the most recent entry, so a second write to the
same path overwrites. Directories (only ever created, never inspected for
content) are a list of paths. -/

/-- File system: path ↦ byte content, most recent entry first. -/
abbrev FS := List (String × List Nat)

/-- Content of the file at `p`, `none` if absent (`os.path.isfile` is
`isSome`). -/
def fsLookup : FS → String → Option (List Nat)
  | [], _ => none
  | (q, c) :: rest, p => if q = p then some c else fsLookup rest p

/-- Python `open(p, "wb").write(c)`: overwrite `p` with content `c`. -/
def fsWrite (fs : FS) (p : String) (c : List Nat) : FS :=
  (p, c) :: fs

/-- Python `os.path.exists`: true for files and directories alike. -/
def os_path_exists (fs : FS) (dirs : List String) (p : String) : Bool :=
  (fsLookup fs p).isSome || dirs.contains p

/-! ## `render` -/

/-- The exceptions `render` can raise: `FileNotFoundError` for a missing
source file, or the `ValueError` propagated out of `parse_pages`. -/
inductive RenderErr where
  | fileNotFound (path : String)
  | valueError (e : PageErr)
  deriving DecidableEq, Repr

/-- Ambient state of one `render` call: the file system, the directories,
the page count `fitz.open(...).page_count` reports for the document, and the
PNG bytes `page.get_pixmap(...)`/`pix.save` produces for each 1-based page
(this abstracts dpi, matrix and grayscale conversion, which only affect
pixel content). -/
structure RenderEnv where
  fs : FS
  dirs : List String
  pageCount : Nat
  pngBytes : Nat → List Nat

/-- Outcome of one `render` call: the returned value or the exception, the
final file system and directories, and whether the fitz document was opened
resp. closed during the call. -/
structure RenderResult where
  result : Except RenderErr (List String)
  fs : FS
  dirs : List String
  docOpened : Bool
  docClosed : Bool

/-- The `out_path` computed for page `page_num` inside the loop of `render`:
`<folder>/<basename>.png` when a single page was selected,
`<folder>/<basename>_p{page_num:02d}.png` otherwise. -/
def out_path (single_output : Bool) (folder_name baseName : String) (page_num : Nat) : String :=
  if single_output then
    os_path_join folder_name (baseName ++ ".png")
  else
    os_path_join folder_name (baseName ++ "_p" ++ pyFormat02 page_num ++ ".png")

/-- The `for page_num in page_list` loop of `render`: writes one PNG per
page (name depending on `single_output`) and accumulates `saved` in loop
order. -/
def writePages (single_output : Bool) (folder_name baseName : String)
    (pngBytes : Nat → List Nat) : List Nat → FS → List String × FS
  | [], fs => ([], fs)
  | p :: rest, fs =>
    let step := writePages single_output folder_name baseName pngBytes rest
      (fsWrite fs (out_path single_output folder_name baseName p) (pngBytes p))
    (out_path single_output folder_name baseName p :: step.1, step.2)

/-- The part of `render` that runs once `page_list` is resolved: folder
creation, the page loop, the conditional archive copy of the source,
`doc.close()`, and the return of `saved`. In the archive step, the `none`
arm of the inner match is unreachable (files are never removed, and the
source file passed the existence check). -/
def renderBody (pdfPath : String) (page_list : List Nat) (env : RenderEnv) : RenderResult :=
  let base := (os_path_splitext pdfPath).1
  let folder_name := base
  let dirs' :=
    if os_path_exists env.fs env.dirs folder_name then env.dirs
    else folder_name :: env.dirs
  let single_output := page_list.length == 1
  let step := writePages single_output folder_name (os_path_basename base)
    env.pngBytes page_list env.fs
  let pdf_copy_path := os_path_join folder_name (os_path_basename base ++ ".pdf")
  let fs₃ :=
    if os_path_exists step.2 dirs' pdf_copy_path then step.2
    else
      match fsLookup step.2 pdfPath with
      | some bytes => fsWrite step.2 pdf_copy_path bytes
      | none => step.2
  ⟨.ok step.1, fs₃, dirs', true, true⟩

/-- Function `render(pdf_path, dpi, pages, grayscale)`. The body follows the source
line by line: existence check, `fitz.open`, `parse_pages` (whose `ValueError`
propagates with the document still open — there is no `try/finally`), then
`renderBody`. -/
def render (pdfPath : String) (pages : Option String) (env : RenderEnv) : RenderResult :=
  if (fsLookup env.fs pdfPath).isNone then
    ⟨.error (.fileNotFound pdfPath), env.fs, env.dirs, false, false⟩
  else
    match parse_pages pages env.pageCount with
    | .error e =>
      ⟨.error (.valueError e), env.fs, env.dirs, true, false⟩
    | .ok page_list => renderBody pdfPath page_list env

/-- A concrete environment: a 3-page document of bytes `[9, 9]` at
`"doc.pdf"`, no pre-existing output. -/
def sampleEnv : RenderEnv := ⟨[("doc.pdf", [9, 9])], [], 3, fun p => [p]⟩

/-- Like `sampleEnv` but the document reports zero pages. -/
def zeroPageEnv : RenderEnv := ⟨[("doc.pdf", [9, 9])], [], 0, fun p => [p]⟩

/-! ## Evaluation helpers for `Finset.sort` (which does not kernel-reduce) -/

/-- Sorting the `Finset` of a strictly sorted list with `(· ≤ ·)` gives that
list itself. -/
theorem sortToFinset {l : List Nat} (h : l.Sorted (· < ·)) :
    l.toFinset.sort (· ≤ ·) = l := by
  have h₁ : (l.toFinset.sort (· ≤ ·)).Nodup := Finset.sort_nodup _ _
  have h₂ : l.Nodup := h.nodup
  have hperm : List.Perm (l.toFinset.sort (· ≤ ·)) l :=
    (List.perm_ext_iff_of_nodup h₁ h₂).mpr (fun a => by simp)
  exact List.eq_of_perm_of_sorted hperm (Finset.sort_sorted _ _) h.le_of_lt

theorem parse_pages_eq_ok {s : String} {N : Nat} {l : List Nat} (hs : s ≠ "")
    (hloop : parsePagesLoop N (splitOnChar ',' s.data) ∅ = .ok l.toFinset)
    (hsorted : l.Sorted (· < ·)) :
    parse_pages (some s) N = .ok l := by
  simp only [parse_pages]
  rw [if_neg hs, hloop]
  simp [Except.map, sortToFinset hsorted]

theorem render_eq_body {pdfPath : String} {pages : Option String} {env : RenderEnv}
    {page_list : List Nat} (hfile : (fsLookup env.fs pdfPath).isNone = false)
    (hparse : parse_pages pages env.pageCount = .ok page_list) :
    render pdfPath pages env = renderBody pdfPath page_list env := by
  simp [render, hfile, hparse]

theorem render_eq_error {pdfPath : String} {pages : Option String} {env : RenderEnv}
    {e : PageErr} (hfile : (fsLookup env.fs pdfPath).isNone = false)
    (hparse : parse_pages pages env.pageCount = .error e) :
    render pdfPath pages env = ⟨.error (.valueError e), env.fs, env.dirs, true, false⟩ := by
  simp [render, hfile, hparse]

/-! ## Lemmas about `parse_pages` -/

theorem tokenPages_ok {N : Nat} {part : List Char} {ps : Finset Nat}
    (h : tokenPages N part = .ok ps) :
    ps.Nonempty ∧ ∀ x ∈ ps, 1 ≤ x ∧ x ≤ N := by
  unfold tokenPages at h
  by_cases hd : '-' ∈ pyStrip part
  · rw [if_pos hd] at h
    cases ha : pyInt ((pyStrip part).takeWhile (· ≠ '-')) with
    | none => rw [ha] at h; simp at h
    | some a =>
      rw [ha] at h
      cases hb : pyInt (((pyStrip part).dropWhile (· ≠ '-')).tail) with
      | none => rw [hb] at h; simp at h
      | some b =>
        simp only [hb] at h
        split_ifs at h with hcond
        simp only [Except.ok.injEq] at h
        subst h
        push_neg at hcond
        refine ⟨Finset.nonempty_Icc.mpr (by omega), fun x hx => ?_⟩
        rw [Finset.mem_Icc] at hx
        omega
  · rw [if_neg hd] at h
    cases hp : pyInt (pyStrip part) with
    | none => rw [hp] at h; simp at h
    | some p =>
      simp only [hp] at h
      split_ifs at h with hcond
      simp only [Except.ok.injEq] at h
      subst h
      push_neg at hcond
      exact ⟨⟨p.toNat, Finset.mem_singleton_self _⟩, fun x hx => by
        rw [Finset.mem_singleton] at hx; omega⟩

theorem parsePagesLoop_subset {N : Nat} {parts : List (List Char)} {out res : Finset Nat}
    (h : parsePagesLoop N parts out = .ok res) : out ⊆ res := by
  induction parts generalizing out with
  | nil => simp only [parsePagesLoop, Except.ok.injEq] at h; subst h; exact fun _ hx => hx
  | cons part rest ih =>
    simp only [parsePagesLoop] at h
    cases htok : tokenPages N part with
    | error e => rw [htok] at h; simp at h
    | ok ps =>
      rw [htok] at h
      exact fun x hx => ih h (Finset.mem_union_left _ hx)

theorem parsePagesLoop_bounds {N : Nat} {parts : List (List Char)} {out res : Finset Nat}
    (h : parsePagesLoop N parts out = .ok res) :
    ∀ x ∈ res, x ∈ out ∨ (1 ≤ x ∧ x ≤ N) := by
  induction parts generalizing out with
  | nil =>
    simp only [parsePagesLoop, Except.ok.injEq] at h; subst h
    exact fun x hx => Or.inl hx
  | cons part rest ih =>
    simp only [parsePagesLoop] at h
    cases htok : tokenPages N part with
    | error e => rw [htok] at h; simp at h
    | ok ps =>
      rw [htok] at h
      intro x hx
      rcases ih h x hx with hmem | hbound
      · rcases Finset.mem_union.mp hmem with hout | hps
        · exact Or.inl hout
        · exact Or.inr ((tokenPages_ok htok).2 x hps)
      · exact Or.inr hbound

theorem parsePagesLoop_tok_ok {N : Nat} {parts : List (List Char)} {out res : Finset Nat}
    (h : parsePagesLoop N parts out = .ok res) :
    ∀ part ∈ parts, ∃ ps, tokenPages N part = .ok ps := by
  induction parts generalizing out with
  | nil => intro part hmem; simp at hmem
  | cons part₀ rest ih =>
    simp only [parsePagesLoop] at h
    cases htok : tokenPages N part₀ with
    | error e => rw [htok] at h; simp at h
    | ok ps =>
      rw [htok] at h
      intro part hmem
      rcases List.mem_cons.mp hmem with rfl | hmem₀
      · exact ⟨ps, htok⟩
      · exact ih h part hmem₀

theorem parsePagesLoop_error_of_mem {N : Nat} {parts : List (List Char)} {part : List Char}
    (hmem : part ∈ parts) (hbad : ∀ ps, tokenPages N part ≠ .ok ps) (out : Finset Nat) :
    ∃ e, parsePagesLoop N parts out = .error e := by
  induction parts generalizing out with
  | nil => simp at hmem
  | cons part₀ rest ih =>
    simp only [parsePagesLoop]
    cases htok : tokenPages N part₀ with
    | error e => exact ⟨e, rfl⟩
    | ok ps =>
      rcases List.mem_cons.mp hmem with rfl | hmem₀
      · exact absurd htok (hbad ps)
      · exact ih hmem₀ _

theorem splitOnChar_ne_nil (c : Char) (l : List Char) : splitOnChar c l ≠ [] := by
  induction l with
  | nil => simp [splitOnChar]
  | cons x xs ih =>
    simp only [splitOnChar]
    split_ifs
    · simp
    · cases h : splitOnChar c xs with
      | nil => simp
      | cons h t => simp

theorem splitOnChar_no_sep {c : Char} {l : List Char} (h : c ∉ l) :
    splitOnChar c l = [l] := by
  induction l with
  | nil => rfl
  | cons x xs ih =>
    simp only [splitOnChar]
    rw [if_neg (by intro hx; exact h (hx ▸ List.mem_cons_self x xs))]
    rw [ih (fun hc => h (List.mem_cons_of_mem _ hc))]

/-- Any list of pages `parse_pages` returns is strictly ascending (hence
duplicate-free). -/
theorem parse_pages_ok_sorted {s : Option String} {N : Nat} {l : List Nat}
    (h : parse_pages s N = .ok l) : l.Sorted (· < ·) := by
  match s with
  | none =>
    simp only [parse_pages, Except.ok.injEq] at h
    exact h ▸ List.pairwise_lt_range' 1 N
  | some str =>
    simp only [parse_pages] at h
    split_ifs at h with hstr
    · simp only [Except.ok.injEq] at h
      exact h ▸ List.pairwise_lt_range' 1 N
    · cases hloop : parsePagesLoop N (splitOnChar ',' str.data) ∅ with
      | error e => rw [hloop] at h; simp [Except.map] at h
      | ok out =>
        rw [hloop] at h
        simp only [Except.map, Except.ok.injEq] at h
        exact h ▸ Finset.sort_sorted_lt out

/-- Every page `parse_pages` returns lies in `[1, num_pages]`. -/
theorem parse_pages_ok_bounds {s : Option String} {N : Nat} {l : List Nat}
    (h : parse_pages s N = .ok l) : ∀ p ∈ l, 1 ≤ p ∧ p ≤ N := by
  match s with
  | none =>
    simp only [parse_pages, Except.ok.injEq] at h
    intro p hp
    rw [← h, List.mem_range'_1] at hp
    omega
  | some str =>
    simp only [parse_pages] at h
    split_ifs at h with hstr
    · simp only [Except.ok.injEq] at h
      intro p hp
      rw [← h, List.mem_range'_1] at hp
      omega
    · cases hloop : parsePagesLoop N (splitOnChar ',' str.data) ∅ with
      | error e => rw [hloop] at h; simp [Except.map] at h
      | ok out =>
        rw [hloop] at h
        simp only [Except.map, Except.ok.injEq] at h
        intro p hp
        rw [← h, Finset.mem_sort] at hp
        rcases parsePagesLoop_bounds hloop p hp with hempty | hbound
        · simp at hempty
        · exact hbound

/-- When `num_pages ≥ 1`, a successful `parse_pages` never returns the empty
list. -/
theorem parse_pages_ok_ne_nil {s : Option String} {N : Nat} {l : List Nat}
    (hN : 1 ≤ N) (h : parse_pages s N = .ok l) : l ≠ [] := by
  have hrange : List.range' 1 N ≠ [] := by
    intro hnil
    have hlen : (List.range' 1 N).length = N := List.length_range' ..
    rw [hnil] at hlen
    simp at hlen
    omega
  match s with
  | none =>
    simp only [parse_pages, Except.ok.injEq] at h
    exact h ▸ hrange
  | some str =>
    simp only [parse_pages] at h
    split_ifs at h with hstr
    · simp only [Except.ok.injEq] at h
      exact h ▸ hrange
    · cases hloop : parsePagesLoop N (splitOnChar ',' str.data) ∅ with
      | error e => rw [hloop] at h; simp [Except.map] at h
      | ok out =>
        rw [hloop] at h
        simp only [Except.map, Except.ok.injEq] at h
        cases hsplit : splitOnChar ',' str.data with
        | nil => exact absurd hsplit (splitOnChar_ne_nil ',' str.data)
        | cons part rest =>
          rw [hsplit] at hloop
          simp only [parsePagesLoop] at hloop
          cases htok : tokenPages N part with
          | error e => rw [htok] at hloop; simp at hloop
          | ok ps =>
            rw [htok] at hloop
            have hsub : ∅ ∪ ps ⊆ out := parsePagesLoop_subset hloop
            obtain ⟨x, hx⟩ := (tokenPages_ok htok).1
            have hxout : x ∈ out := hsub (Finset.mem_union_right _ hx)
            intro hnil
            rw [hnil] at h
            have hempty : out = ∅ := by
              ext y
              simp only [Finset.not_mem_empty, iff_false]
              intro hy
              have hmem := (Finset.mem_sort (α := Nat) (· ≤ ·)).mpr hy
              rw [h] at hmem
              simp at hmem
            rw [hempty] at hxout
            simp at hxout

/-! ## Lemmas about the file-system model and path strings -/

theorem fsLookup_write (fs : FS) (p q : String) (c : List Nat) :
    fsLookup (fsWrite fs p c) q = if p = q then some c else fsLookup fs q := rfl

theorem writePages_saved (so : Bool) (f b : String) (g : Nat → List Nat)
    (ps : List Nat) (fs : FS) :
    (writePages so f b g ps fs).1 = ps.map (out_path so f b) := by
  induction ps generalizing fs with
  | nil => rfl
  | cons p rest ih => simp [writePages, ih]

theorem writePages_lookup (so : Bool) (f b : String) (g : Nat → List Nat)
    (ps : List Nat) (fs : FS) (q : String)
    (hq : ∀ p ∈ ps, out_path so f b p ≠ q) :
    fsLookup (writePages so f b g ps fs).2 q = fsLookup fs q := by
  induction ps generalizing fs with
  | nil => rfl
  | cons p rest ih =>
    simp only [writePages]
    rw [ih _ (fun p' hp' => hq p' (List.mem_cons_of_mem _ hp'))]
    rw [fsLookup_write, if_neg (hq p (List.mem_cons_self _ _))]

theorem writePages_isSome (so : Bool) (f b : String) (g : Nat → List Nat)
    (ps : List Nat) (fs : FS) (q : String)
    (hq : (fsLookup fs q).isSome) :
    (fsLookup (writePages so f b g ps fs).2 q).isSome := by
  induction ps generalizing fs with
  | nil => exact hq
  | cons p rest ih =>
    simp only [writePages]
    refine ih _ ?_
    rw [fsLookup_write]
    split_ifs
    · rfl
    · exact hq

theorem writePages_saved_isSome (so : Bool) (f b : String) (g : Nat → List Nat)
    (ps : List Nat) (fs : FS) :
    ∀ q ∈ (writePages so f b g ps fs).1, (fsLookup (writePages so f b g ps fs).2 q).isSome := by
  induction ps generalizing fs with
  | nil => intro q hq; simp [writePages] at hq
  | cons p rest ih =>
    intro q hq
    simp only [writePages, List.mem_cons] at hq ⊢
    rcases hq with rfl | hq
    · exact writePages_isSome _ _ _ _ _ _ _ (by rw [fsLookup_write, if_pos rfl]; rfl)
    · exact ih _ q hq

theorem data_getLast?_append (a b : String) (hb : b.data ≠ []) :
    (a ++ b).data.getLast? = b.data.getLast? := by
  rw [String.data_append]
  exact List.getLast?_append_of_ne_nil _ hb

theorem join_getLast? (a b : String) (hb : b.data ≠ []) :
    (os_path_join a b).data.getLast? = b.data.getLast? := by
  unfold os_path_join
  split_ifs
  · rfl
  · exact data_getLast?_append a b hb
  · exact data_getLast?_append _ b hb

theorem png_getLast? (x : String) : ((x ++ ".png") : String).data.getLast? = some 'g' := by
  rw [data_getLast?_append x ".png" (by decide)]
  rfl

theorem pdf_getLast? (x : String) : ((x ++ ".pdf") : String).data.getLast? = some 'f' := by
  rw [data_getLast?_append x ".pdf" (by decide)]
  rfl

theorem ne_nil_of_getLast? {l : List Char} {c : Char} (h : l.getLast? = some c) :
    l ≠ [] := by
  intro hnil
  rw [hnil] at h
  simp at h

/-- Every path the page loop writes ends in the character `'g'` (of
`".png"`). -/
theorem out_path_getLast? (so : Bool) (f b : String) (p : Nat) :
    (out_path so f b p).data.getLast? = some 'g' := by
  unfold out_path
  split_ifs
  · rw [join_getLast? _ _ (ne_nil_of_getLast? (png_getLast? b))]
    exact png_getLast? b
  · rw [join_getLast? _ _ (ne_nil_of_getLast? (png_getLast? _))]
    exact png_getLast? _

/-- The archived copy's path ends in the character `'f'` (of `".pdf"`). -/
theorem copy_path_getLast? (f b : String) :
    (os_path_join f (b ++ ".pdf")).data.getLast? = some 'f' := by
  rw [join_getLast? _ _ (ne_nil_of_getLast? (pdf_getLast? b))]
  exact pdf_getLast? b

/-- A written PNG path is never the archived copy's path. -/
theorem out_path_ne_copy (so : Bool) (f b : String) (p : Nat) (f' b' : String) :
    out_path so f b p ≠ os_path_join f' (b' ++ ".pdf") := by
  intro h
  have hlast := congrArg (fun s => s.data.getLast?) h
  simp only at hlast
  rw [out_path_getLast?, copy_path_getLast?] at hlast
  simp at hlast

/-! ## Structural lemmas about `splitext`, `basename` and `join` -/

theorem string_data_inj {s t : String} (h : s.data = t.data) : s = t :=
  congrArg String.mk h

theorem dropWhile_head_false {p : Char → Bool} :
    ∀ {l : List Char} {x : Char} {xs : List Char}, l.dropWhile p = x :: xs → p x = false := by
  intro l
  induction l with
  | nil => intro x xs h; simp at h
  | cons c cs ih =>
    intro x xs h
    rw [List.dropWhile_cons] at h
    split_ifs at h with hc
    · exact ih h
    · cases h
      simpa using hc

theorem mem_afterLast {c x : Char} {l : List Char} (hx : x ∈ afterLast c l) : x ≠ c := by
  unfold afterLast at hx
  rw [List.mem_reverse] at hx
  have := List.mem_takeWhile_imp hx
  simpa using this

theorem uptoLast_append_afterLast (c : Char) (l : List Char) :
    uptoLast c l ++ afterLast c l = l := by
  unfold uptoLast afterLast
  rw [← List.reverse_append, List.takeWhile_append_dropWhile, List.reverse_reverse]

/-- A `basename` never starts with `'/'` (it contains no `'/'` at all). -/
theorem basename_head (t : String) : (os_path_basename t).data.head? ≠ some '/' := by
  cases hb : (os_path_basename t).data with
  | nil => simp
  | cons c cs =>
    simp only [List.head?_cons, ne_eq, Option.some.injEq]
    intro hc
    have hmem : c ∈ (os_path_basename t).data := by rw [hb]; exact List.mem_cons_self _ _
    exact mem_afterLast (l := t.data) hmem hc

theorem head?_append_left {l₁ l₂ : List Char} (h : l₁ ≠ []) :
    (l₁ ++ l₂).head? = l₁.head? := by
  cases l₁
  · simp at h
  · rfl

theorem head?_append_ne {l₁ l₂ : List Char} {c : Char} (h₁ : l₁.head? ≠ some c)
    (h₂ : l₂.head? ≠ some c) : (l₁ ++ l₂).head? ≠ some c := by
  cases l₁
  · simpa using h₂
  · simpa using h₁

/-- Neither PNG stem (`<bn>.png`, `<bn>_pNN.png`) nor the archive stem
(`<bn>.pdf`) starts with `'/'`, where `bn` is a `basename`. -/
theorem stem_head_single (t X : String) (hX : X.data.head? ≠ some '/') :
    ((os_path_basename t ++ X) : String).data.head? ≠ some '/' := by
  rw [String.data_append]
  exact head?_append_ne (basename_head t) hX

theorem stem_head_multi (t : String) (n : Nat) :
    ((os_path_basename t ++ "_p" ++ pyFormat02 n ++ ".png") : String).data.head? ≠
      some '/' := by
  rw [String.data_append, String.data_append, String.data_append]
  rw [head?_append_left, head?_append_left]
  · exact head?_append_ne (basename_head t) (by decide)
  · simp
  · simp

/-- The structure of `splitext` when it finds a real extension: the two
parts concatenate back to the input, the extension starts with a dot, and
the root is nonempty and does not end with `'/'`. -/
theorem splitext_spec {p base ext : String} (heq : os_path_splitext p = (base, ext))
    (hne : ext ≠ "") :
    p = base ++ ext ∧ ext.data.head? = some '.' ∧ base.data ≠ [] ∧
      base.data.getLast? ≠ some '/' := by
  unfold os_path_splitext at heq
  simp only [] at heq
  cases hdrop : (afterLast '/' p.data).reverse.dropWhile (· ≠ '.') with
  | nil =>
    rw [hdrop] at heq
    simp only [Prod.mk.injEq] at heq
    exact absurd heq.2.symm hne
  | cons d rootRev =>
    rw [hdrop] at heq
    simp only [] at heq
    split_ifs at heq with hany
    · simp only [Prod.mk.injEq] at heq
      obtain ⟨hbase, hext⟩ := heq
      have hd : d = '.' := by
        have := dropWhile_head_false hdrop
        simpa using this
      have hsplit : (afterLast '/' p.data).reverse.takeWhile (· ≠ '.') ++ (d :: rootRev)
          = (afterLast '/' p.data).reverse := by
        rw [← hdrop]
        exact List.takeWhile_append_dropWhile ..
      have hname : afterLast '/' p.data = (rootRev.reverse ++ [d]) ++
          ((afterLast '/' p.data).reverse.takeWhile (· ≠ '.')).reverse := by
        have h1 := congrArg List.reverse hsplit
        rw [List.reverse_append, List.reverse_cons, List.reverse_reverse] at h1
        exact h1.symm
      have hrootne : rootRev ≠ [] := by
        intro hnil
        rw [hnil] at hany
        simp at hany
      have hrootrev : rootRev.reverse ≠ [] := by
        simpa using hrootne
      refine ⟨?_, ?_, ?_, ?_⟩
      · apply string_data_inj
        rw [String.data_append, ← hbase, ← hext]
        show p.data = (uptoLast '/' p.data ++ rootRev.reverse) ++
          ('.' :: ((afterLast '/' p.data).reverse.takeWhile (· ≠ '.')).reverse)
        conv_lhs => rw [← uptoLast_append_afterLast '/' p.data, hname]
        rw [hd]
        simp [List.append_assoc]
      · rw [← hext]
        rfl
      · rw [← hbase]
        show uptoLast '/' p.data ++ rootRev.reverse ≠ []
        simp [hrootrev]
      · rw [← hbase]
        show (uptoLast '/' p.data ++ rootRev.reverse).getLast? ≠ some '/'
        rw [List.getLast?_append_of_ne_nil _ hrootrev, List.getLast?_reverse]
        cases hh : rootRev.head? with
        | none => simp
        | some c =>
          simp only [ne_eq, Option.some.injEq]
          intro hc
          have hcmem : c ∈ rootRev := by
            cases rootRev with
            | nil => simp at hh
            | cons y ys =>
              simp only [List.head?_cons, Option.some.injEq] at hh
              exact hh ▸ List.mem_cons_self _ _
          have hmemdrop : c ∈ (afterLast '/' p.data).reverse.dropWhile (· ≠ '.') := by
            rw [hdrop]
            exact List.mem_cons_of_mem _ hcmem
          have hmemname : c ∈ afterLast '/' p.data := by
            rw [← List.mem_reverse]
            exact (List.dropWhile_sublist _).mem hmemdrop
          exact mem_afterLast hmemname hc
    · simp only [Prod.mk.injEq] at heq
      exact absurd heq.2.symm hne

theorem join_eq {a b : String} (ha : a.data ≠ []) (hlast : a.data.getLast? ≠ some '/')
    (hb : b.data.head? ≠ some '/') :
    os_path_join a b = a ++ "/" ++ b := by
  unfold os_path_join
  rw [if_neg hb, if_neg]
  rintro (rfl | h)
  · exact ha rfl
  · exact hlast h

/-- With a genuine extension, the source path `base ++ ext` never coincides
with a path `join base stem` inside the output folder. -/
theorem append_ext_ne_join {base ext stem : String} (hbase : base.data ≠ [])
    (hlast : base.data.getLast? ≠ some '/') (hext : ext.data.head? = some '.')
    (hstem : stem.data.head? ≠ some '/') :
    base ++ ext ≠ os_path_join base stem := by
  rw [join_eq hbase hlast hstem]
  intro heq
  have hd := congrArg String.data heq
  rw [String.data_append, String.data_append, String.data_append,
    List.append_assoc] at hd
  have h₂ := List.append_cancel_left hd
  have hh := congrArg List.head? h₂
  rw [hext] at hh
  have hslash : ("/" : String).data = ['/'] := rfl
  rw [hslash] at hh
  simp at hh

theorem ne_append_right {s t : String} (h : t.data ≠ []) : s ≠ s ++ t := by
  intro heq
  have := congrArg (fun u => u.data.length) heq
  simp only [String.data_append, List.length_append] at this
  have : t.data.length = 0 := by omega
  exact h (List.length_eq_zero.mp this)

/-- The folder itself is never the archive path. -/
theorem base_ne_join {base stem : String} (hbase : base.data ≠ [])
    (hlast : base.data.getLast? ≠ some '/') (hstem : stem.data.head? ≠ some '/') :
    base ≠ os_path_join base stem := by
  rw [join_eq hbase hlast hstem, String.append_assoc]
  exact ne_append_right (by rw [String.data_append]; simp)

/-! ## Lemmas about `renderBody` -/

theorem renderBody_result (pdfPath : String) (l : List Nat) (env : RenderEnv) :
    (renderBody pdfPath l env).result =
      .ok ((writePages (l.length == 1) (os_path_splitext pdfPath).1
        (os_path_basename (os_path_splitext pdfPath).1) env.pngBytes l env.fs).1) := rfl

theorem renderBody_opened (pdfPath : String) (l : List Nat) (env : RenderEnv) :
    (renderBody pdfPath l env).docOpened = true := rfl

theorem renderBody_closed (pdfPath : String) (l : List Nat) (env : RenderEnv) :
    (renderBody pdfPath l env).docClosed = true := rfl

theorem splitext_eta (p : String) :
    os_path_splitext p = ((os_path_splitext p).1, (os_path_splitext p).2) := rfl

theorem pdfPath_ne_out_path {pdfPath base ext : String}
    (heq : os_path_splitext pdfPath = (base, ext)) (hne : ext ≠ "") (so : Bool) (p : Nat) :
    pdfPath ≠ out_path so base (os_path_basename base) p := by
  obtain ⟨hp, hext, hbne, hblast⟩ := splitext_spec heq hne
  rw [hp]
  unfold out_path
  split_ifs
  · exact append_ext_ne_join hbne hblast hext (stem_head_single base ".png" (by decide))
  · exact append_ext_ne_join hbne hblast hext (stem_head_multi base p)

theorem pdfPath_ne_copy_path {pdfPath base ext : String}
    (heq : os_path_splitext pdfPath = (base, ext)) (hne : ext ≠ "") :
    pdfPath ≠ os_path_join base (os_path_basename base ++ ".pdf") := by
  obtain ⟨hp, hext, hbne, hblast⟩ := splitext_spec heq hne
  rw [hp]
  exact append_ext_ne_join hbne hblast hext (stem_head_single base ".pdf" (by decide))

theorem base_ne_copy_path {pdfPath base ext : String}
    (heq : os_path_splitext pdfPath = (base, ext)) (hne : ext ≠ "") :
    base ≠ os_path_join base (os_path_basename base ++ ".pdf") := by
  obtain ⟨_, _, hbne, hblast⟩ := splitext_spec heq hne
  exact base_ne_join hbne hblast (stem_head_single base ".pdf" (by decide))

/-- If the archive path already holds content `c`, `renderBody` leaves it
untouched (the page loop writes only `.png` paths, and the copy is skipped
because the path exists). -/
theorem renderBody_copy_present {pdfPath : String} {l : List Nat} {env : RenderEnv} {c : List Nat}
    (hc : fsLookup env.fs (os_path_join (os_path_splitext pdfPath).1
      (os_path_basename (os_path_splitext pdfPath).1 ++ ".pdf")) = some c) :
    fsLookup (renderBody pdfPath l env).fs
      (os_path_join (os_path_splitext pdfPath).1
        (os_path_basename (os_path_splitext pdfPath).1 ++ ".pdf")) = some c := by
  simp only [renderBody]
  have hw : fsLookup (writePages (l.length == 1) (os_path_splitext pdfPath).1
      (os_path_basename (os_path_splitext pdfPath).1) env.pngBytes l env.fs).2
      (os_path_join (os_path_splitext pdfPath).1
        (os_path_basename (os_path_splitext pdfPath).1 ++ ".pdf")) = some c := by
    rw [writePages_lookup _ _ _ _ _ _ _ (fun p _ => out_path_ne_copy _ _ _ p _ _)]
    exact hc
  rw [if_pos (by simp [os_path_exists, hw])]
  exact hw

/-- If the archive path is absent (as a file and as a directory),
`renderBody` writes the source file's current content there. -/
theorem renderBody_copy_absent {pdfPath : String} {l : List Nat} {env : RenderEnv}
    (hne : (os_path_splitext pdfPath).2 ≠ "")
    (habs : fsLookup env.fs (os_path_join (os_path_splitext pdfPath).1
      (os_path_basename (os_path_splitext pdfPath).1 ++ ".pdf")) = none)
    (hdir : env.dirs.contains (os_path_join (os_path_splitext pdfPath).1
      (os_path_basename (os_path_splitext pdfPath).1 ++ ".pdf")) = false) :
    fsLookup (renderBody pdfPath l env).fs
      (os_path_join (os_path_splitext pdfPath).1
        (os_path_basename (os_path_splitext pdfPath).1 ++ ".pdf")) =
      fsLookup env.fs pdfPath := by
  simp only [renderBody]
  have hw : fsLookup (writePages (l.length == 1) (os_path_splitext pdfPath).1
      (os_path_basename (os_path_splitext pdfPath).1) env.pngBytes l env.fs).2
      (os_path_join (os_path_splitext pdfPath).1
        (os_path_basename (os_path_splitext pdfPath).1 ++ ".pdf")) = none := by
    rw [writePages_lookup _ _ _ _ _ _ _ (fun p _ => out_path_ne_copy _ _ _ p _ _)]
    exact habs
  have hwpdf : fsLookup (writePages (l.length == 1) (os_path_splitext pdfPath).1
      (os_path_basename (os_path_splitext pdfPath).1) env.pngBytes l env.fs).2 pdfPath =
      fsLookup env.fs pdfPath :=
    writePages_lookup _ _ _ _ _ _ _
      (fun p _ => (pdfPath_ne_out_path (splitext_eta pdfPath) hne (l.length == 1) p).symm)
  have hdirs : (if os_path_exists env.fs env.dirs (os_path_splitext pdfPath).1 then env.dirs
      else (os_path_splitext pdfPath).1 :: env.dirs).contains
      (os_path_join (os_path_splitext pdfPath).1
        (os_path_basename (os_path_splitext pdfPath).1 ++ ".pdf")) = false := by
    split_ifs
    · exact hdir
    · simp only [List.contains_cons, Bool.or_eq_false_iff]
      refine ⟨?_, hdir⟩
      rw [beq_eq_false_iff_ne]
      exact Ne.symm (base_ne_copy_path (splitext_eta pdfPath) hne)
  have hex : os_path_exists (writePages (l.length == 1) (os_path_splitext pdfPath).1
      (os_path_basename (os_path_splitext pdfPath).1) env.pngBytes l env.fs).2
      (if os_path_exists env.fs env.dirs (os_path_splitext pdfPath).1 then env.dirs
        else (os_path_splitext pdfPath).1 :: env.dirs)
      (os_path_join (os_path_splitext pdfPath).1
        (os_path_basename (os_path_splitext pdfPath).1 ++ ".pdf")) = false := by
    unfold os_path_exists at hdirs ⊢
    rw [hw, hdirs]
    rfl
  rw [if_neg (by rw [hex]; simp)]
  cases hlk : fsLookup (writePages (l.length == 1) (os_path_splitext pdfPath).1
      (os_path_basename (os_path_splitext pdfPath).1) env.pngBytes l env.fs).2 pdfPath with
  | none =>
    rw [hw]
    rw [hlk] at hwpdf
    exact hwpdf
  | some bytes =>
    simp only []
    rw [fsLookup_write, if_pos rfl]
    rw [hlk] at hwpdf
    exact hwpdf

/-- Fact: `renderBody` never modifies the source file's entry (given a genuine
extension, it writes only into the output folder). -/
theorem renderBody_fs_pdf {pdfPath : String} {l : List Nat} {env : RenderEnv}
    (hne : (os_path_splitext pdfPath).2 ≠ "") :
    fsLookup (renderBody pdfPath l env).fs pdfPath = fsLookup env.fs pdfPath := by
  simp only [renderBody]
  have hwpdf : fsLookup (writePages (l.length == 1) (os_path_splitext pdfPath).1
      (os_path_basename (os_path_splitext pdfPath).1) env.pngBytes l env.fs).2 pdfPath =
      fsLookup env.fs pdfPath :=
    writePages_lookup _ _ _ _ _ _ _
      (fun p _ => (pdfPath_ne_out_path (splitext_eta pdfPath) hne (l.length == 1) p).symm)
  by_cases hex : os_path_exists (writePages (l.length == 1) (os_path_splitext pdfPath).1
      (os_path_basename (os_path_splitext pdfPath).1) env.pngBytes l env.fs).2
      (if os_path_exists env.fs env.dirs (os_path_splitext pdfPath).1 then env.dirs
        else (os_path_splitext pdfPath).1 :: env.dirs)
      (os_path_join (os_path_splitext pdfPath).1
        (os_path_basename (os_path_splitext pdfPath).1 ++ ".pdf")) = true
  · rw [if_pos hex]
    exact hwpdf
  · rw [if_neg hex]
    cases hlk : fsLookup (writePages (l.length == 1) (os_path_splitext pdfPath).1
        (os_path_basename (os_path_splitext pdfPath).1) env.pngBytes l env.fs).2 pdfPath with
    | none =>
      simp only []
      exact hwpdf
    | some bytes =>
      simp only []
      rw [fsLookup_write, if_neg (Ne.symm (pdfPath_ne_copy_path (splitext_eta pdfPath) hne))]
      exact hwpdf

/-- Every path the loop reports as saved is present in the final file
system. -/
theorem renderBody_saved_isSome (pdfPath : String) (l : List Nat) (env : RenderEnv) :
    ∀ q ∈ (writePages (l.length == 1) (os_path_splitext pdfPath).1
      (os_path_basename (os_path_splitext pdfPath).1) env.pngBytes l env.fs).1,
      (fsLookup (renderBody pdfPath l env).fs q).isSome := by
  intro q hq
  simp only [renderBody]
  have h1 := writePages_saved_isSome (l.length == 1) (os_path_splitext pdfPath).1
    (os_path_basename (os_path_splitext pdfPath).1) env.pngBytes l env.fs q hq
  by_cases hex : os_path_exists (writePages (l.length == 1) (os_path_splitext pdfPath).1
      (os_path_basename (os_path_splitext pdfPath).1) env.pngBytes l env.fs).2
      (if os_path_exists env.fs env.dirs (os_path_splitext pdfPath).1 then env.dirs
        else (os_path_splitext pdfPath).1 :: env.dirs)
      (os_path_join (os_path_splitext pdfPath).1
        (os_path_basename (os_path_splitext pdfPath).1 ++ ".pdf")) = true
  · rw [if_pos hex]
    exact h1
  · rw [if_neg hex]
    cases hlk : fsLookup (writePages (l.length == 1) (os_path_splitext pdfPath).1
        (os_path_basename (os_path_splitext pdfPath).1) env.pngBytes l env.fs).2 pdfPath with
    | none => exact h1
    | some bytes =>
      simp only []
      rw [fsLookup_write]
      split_ifs
      · rfl
      · exact h1

/-- A successful `render` implies the source file existed, `parse_pages`
succeeded, and the run took the `renderBody` path. -/
theorem render_ok_inv {pdfPath : String} {pages : Option String} {env : RenderEnv}
    {s : List String} (h : (render pdfPath pages env).result = .ok s) :
    (fsLookup env.fs pdfPath).isNone = false ∧
      ∃ l, parse_pages pages env.pageCount = .ok l ∧
        render pdfPath pages env = renderBody pdfPath l env := by
  by_cases hfile : (fsLookup env.fs pdfPath).isNone = true
  · simp [render, hfile] at h
  · have hfile' : (fsLookup env.fs pdfPath).isNone = false := by
      cases hval : (fsLookup env.fs pdfPath).isNone
      · rfl
      · exact absurd hval hfile
    cases hp : parse_pages pages env.pageCount with
    | error e => simp [render, hfile', hp] at h
    | ok l => exact ⟨hfile', l, rfl, by simp [render, hfile', hp]⟩

/-! ## Evaluation lemmas for single tokens -/

theorem tokenPages_invalidNumber {N : Nat} {part : List Char} {p : Int}
    (hh : '-' ∉ pyStrip part) (hp : pyInt (pyStrip part) = some p)
    (hout : p < 1 ∨ (N : Int) < p) :
    tokenPages N part = .error (.invalidNumber p) := by
  unfold tokenPages
  rw [if_neg hh]
  simp only [hp]
  rw [if_pos hout]

theorem tokenPages_invalidRange {N : Nat} {part : List Char} {a b : Int}
    (hh : '-' ∈ pyStrip part)
    (ha : pyInt ((pyStrip part).takeWhile (· ≠ '-')) = some a)
    (hb : pyInt (((pyStrip part).dropWhile (· ≠ '-')).tail) = some b)
    (hout : a < 1 ∨ b < 1 ∨ (N : Int) < a ∨ (N : Int) < b ∨ b < a) :
    tokenPages N part = .error (.invalidRange ⟨pyStrip part⟩) := by
  unfold tokenPages
  rw [if_pos hh]
  simp only [ha, hb]
  rw [if_pos hout]

theorem parse_pages_single_error {t : String} {N : Nat} {e : PageErr}
    (ht : t ≠ "") (hc : ',' ∉ t.data) (htok : tokenPages N t.data = .error e) :
    parse_pages (some t) N = .error e := by
  simp only [parse_pages]
  rw [if_neg ht, splitOnChar_no_sep hc]
  simp only [parsePagesLoop, htok]
  rfl

theorem parse_pages_error_of_loop {s : String} {N : Nat} {e : PageErr} (hs : s ≠ "")
    (hloop : parsePagesLoop N (splitOnChar ',' s.data) ∅ = .error e) :
    parse_pages (some s) N = .error e := by
  simp only [parse_pages]
  rw [if_neg hs, hloop]
  rfl

theorem ne_empty_of_pyInt {t : String} {p : Int}
    (hp : pyInt (pyStrip t.data) = some p) : t ≠ "" := by
  intro h0
  subst h0
  have h1 : pyInt (pyStrip ("" : String).data) = none := rfl
  rw [h1] at hp
  cases hp

theorem ne_empty_of_hyphen {t : String} (hh : '-' ∈ pyStrip t.data) : t ≠ "" := by
  intro h0
  subst h0
  have h1 : pyStrip ("" : String).data = [] := rfl
  rw [h1] at hh
  cases hh

/-! ## Claim theorems -/

/-- C1: for every page specification and every `total_pages` on which
`parse_pages` succeeds, the returned sequence is strictly ascending (hence
duplicate-free) and every element lies in `[1, total_pages]`. -/
theorem claim_C1_resolver_sorted_bounded {s : Option String} {N : Nat} {l : List Nat}
    (h : parse_pages s N = .ok l) :
    l.Sorted (· < ·) ∧ ∀ p ∈ l, 1 ≤ p ∧ p ≤ N :=
  ⟨parse_pages_ok_sorted h, parse_pages_ok_bounds h⟩

theorem claim_C1_witness :
    ([1, 3, 4, 5, 7] : List Nat).Sorted (· < ·) ∧
      ∀ p ∈ ([1, 3, 4, 5, 7] : List Nat), 1 ≤ p ∧ p ≤ 10 :=
  claim_C1_resolver_sorted_bounded
    (parse_pages_eq_ok (by decide) (by decide) (by decide) :
      parse_pages (some "1,3-5,7") 10 = .ok [1, 3, 4, 5, 7])

/-- C5: a single-integer token outside `[1, total_pages]` fails with
`InvalidPageNumber` carrying the offending value, and a range token `a-b`
violating `1 ≤ a ≤ b ≤ total_pages` fails with `InvalidPageRange` carrying
the offending (stripped) token; in particular `resolve("0", 5)`,
`resolve("6", 5)` fail with `InvalidPageNumber` and `resolve("3-2", 5)`
with `InvalidPageRange`. -/
theorem claim_C5_out_of_range_errors :
    (∀ (t : String) (N : Nat) (p : Int), ',' ∉ t.data → '-' ∉ pyStrip t.data →
      pyInt (pyStrip t.data) = some p → (p < 1 ∨ (N : Int) < p) →
      parse_pages (some t) N = .error (.invalidNumber p))
    ∧ (∀ (t : String) (N : Nat) (a b : Int), ',' ∉ t.data → '-' ∈ pyStrip t.data →
      pyInt ((pyStrip t.data).takeWhile (· ≠ '-')) = some a →
      pyInt (((pyStrip t.data).dropWhile (· ≠ '-')).tail) = some b →
      (a < 1 ∨ b < 1 ∨ (N : Int) < a ∨ (N : Int) < b ∨ b < a) →
      parse_pages (some t) N = .error (.invalidRange ⟨pyStrip t.data⟩))
    ∧ parse_pages (some "0") 5 = .error (.invalidNumber 0)
    ∧ parse_pages (some "6") 5 = .error (.invalidNumber 6)
    ∧ parse_pages (some "3-2") 5 = .error (.invalidRange "3-2") := by
  refine ⟨?_, ?_, by decide, by decide, by decide⟩
  · intro t N p hc hh hp hout
    exact parse_pages_single_error (ne_empty_of_pyInt hp) hc
      (tokenPages_invalidNumber hh hp hout)
  · intro t N a b hc hh ha hb hout
    exact parse_pages_single_error (ne_empty_of_hyphen hh) hc
      (tokenPages_invalidRange hh ha hb hout)

theorem claim_C5_witness :
    parse_pages (some " 07 ") 5 = .error (.invalidNumber 7) ∧
      parse_pages (some "2-9") 5 = .error (.invalidRange "2-9") :=
  ⟨claim_C5_out_of_range_errors.1 " 07 " 5 7 (by decide) (by decide) (by decide)
      (by decide),
    claim_C5_out_of_range_errors.2.1 "2-9" 5 2 9 (by decide) (by decide) (by decide)
      (by decide) (by decide)⟩

/-- C6: for `total_pages = N ≥ 1`, an absent (`None`) or empty page
specification resolves to exactly `[1, 2, ..., N]`: both calls return the
same list, of length `N`, whose `i`-th entry is `i + 1`. -/
theorem claim_C6_default_all_pages (N : Nat) (_hN : 1 ≤ N) :
    ∃ l, parse_pages none N = .ok l ∧ parse_pages (some "") N = .ok l ∧
      l.length = N ∧ ∀ (i : Nat) (hi : i < l.length), l.get ⟨i, hi⟩ = 1 + i := by
  refine ⟨List.range' 1 N, rfl, rfl, List.length_range' .., ?_⟩
  intro i hi
  rw [List.get_eq_getElem]
  exact List.getElem_range'_1 i _

theorem claim_C6_witness :
    ∃ l, parse_pages none 3 = .ok l ∧ parse_pages (some "") 3 = .ok l ∧
      l.length = 3 ∧ ∀ (i : Nat) (hi : i < l.length), l.get ⟨i, hi⟩ = 1 + i :=
  claim_C6_default_all_pages 3 (by decide)

/-- C7: overlapping tokens are unioned and the result sorted:
`resolve("1,3-5,7", 10) = [1, 3, 4, 5, 7]` and
`resolve("2-4,1", 10) = [1, 2, 3, 4]`. -/
theorem claim_C7_union_sort_examples :
    parse_pages (some "1,3-5,7") 10 = .ok [1, 3, 4, 5, 7] ∧
      parse_pages (some "2-4,1") 10 = .ok [1, 2, 3, 4] :=
  ⟨parse_pages_eq_ok (by decide) (by decide) (by decide),
    parse_pages_eq_ok (by decide) (by decide) (by decide)⟩

/-- C9 (counterexample): a zero-page document with an absent page
specification is *not* treated as an input error — `parse_pages` succeeds
with the empty list and `render` returns an empty manifest. -/
theorem claim_C9_counterexample :
    parse_pages none 0 = .ok [] ∧
      (render "doc.pdf" none zeroPageEnv).result = .ok [] := by
  constructor
  · decide
  · rw [render_eq_body (by decide) (by decide : parse_pages none 0 = .ok [])]
    decide

/-- C9 (amended): whenever `total_pages ≥ 1`, every successful resolution
returns a non-empty page list; only a zero-page document (with an absent or
empty specification) produces an empty result, without an error. -/
theorem claim_C9_nonempty_of_pos {s : Option String} {N : Nat} {l : List Nat}
    (hN : 1 ≤ N) (h : parse_pages s N = .ok l) : l ≠ [] :=
  parse_pages_ok_ne_nil hN h

theorem claim_C9_witness : ([1, 2, 3] : List Nat) ≠ [] :=
  claim_C9_nonempty_of_pos (s := none) (N := 3) (by decide) (by decide)

/-- C10: a malformed token — one on which Python's `int()` fails: empty,
non-numeric, leading-hyphen (empty left part), or multi-hyphen (non-integer
right part) — anywhere in a non-empty specification makes `parse_pages`
raise a `ValueError`; it never returns a page list, and no such token is
skipped or coerced. -/
theorem claim_C10_malformed_token_errors :
    (∀ (s : String) (N : Nat), ∀ part ∈ splitOnChar ',' s.data, s ≠ "" →
      (('-' ∉ pyStrip part ∧ pyInt (pyStrip part) = none) ∨
        ('-' ∈ pyStrip part ∧ pyInt ((pyStrip part).takeWhile (· ≠ '-')) = none) ∨
        ('-' ∈ pyStrip part ∧
          (∃ a, pyInt ((pyStrip part).takeWhile (· ≠ '-')) = some a) ∧
          pyInt (((pyStrip part).dropWhile (· ≠ '-')).tail) = none)) →
      ∃ e, parse_pages (some s) N = .error e)
    ∧ parse_pages (some "abc") 5 = .error (.intParse "abc")
    ∧ parse_pages (some "1,,2") 5 = .error (.intParse "")
    ∧ parse_pages (some "-2") 5 = .error (.intParse "")
    ∧ parse_pages (some "1-2-3") 5 = .error (.intParse "2-3") := by
  refine ⟨?_, by decide, by decide, by decide, by decide⟩
  intro s N part hmem hs hbad
  have htok : ∃ m, tokenPages N part = .error (.intParse m) := by
    unfold tokenPages
    rcases hbad with ⟨hh, hint⟩ | ⟨hh, hint⟩ | ⟨hh, ⟨a, hint⟩, hintb⟩
    · rw [if_neg hh]
      simp only [hint]
      exact ⟨_, rfl⟩
    · rw [if_pos hh]
      simp only [hint]
      exact ⟨_, rfl⟩
    · rw [if_pos hh]
      simp only [hint, hintb]
      exact ⟨_, rfl⟩
  obtain ⟨m, htok⟩ := htok
  obtain ⟨e, hloop⟩ := parsePagesLoop_error_of_mem hmem
    (fun ps hok => by rw [htok] at hok; cases hok) ∅
  exact ⟨e, parse_pages_error_of_loop hs hloop⟩

theorem claim_C10_witness : ∃ e, parse_pages (some "2,x7") 9 = .error e :=
  claim_C10_malformed_token_errors.1 "2,x7" 9 ('x' :: '7' :: []) (by decide)
    (by decide) (Or.inl ⟨by decide, by decide⟩)

/-- C3 (code-bug exhibit): `render` has no `try`/`finally`, so when
`parse_pages` raises after `fitz.open`, the document handle is never
closed: at this concrete input the run opens the document, propagates the
`ValueError`, and `docClosed` remains `false` — contradicting "closed on
every exit path". -/
theorem claim_C3_no_close_on_error :
    (render "doc.pdf" (some "0") sampleEnv).docOpened = true ∧
      (render "doc.pdf" (some "0") sampleEnv).result =
        .error (.valueError (.invalidNumber 0)) ∧
      (render "doc.pdf" (some "0") sampleEnv).docClosed = false := by
  have h := @render_eq_error "doc.pdf" (some "0") sampleEnv (.invalidNumber 0)
    (by decide) (by decide)
  rw [h]
  exact ⟨rfl, rfl, rfl⟩

/-- C2: on a successful export that selected page list `l`, a single
selected page produces exactly `[<folder>/<basename>.png]` (no page
suffix); two or more pages produce `<folder>/<basename>_p<NN>.png` for each
selected page `p`, where `NN` is `p` zero-padded to at least two digits;
and every reported path is present in the final file system. -/
theorem claim_C2_output_naming {pdfPath : String} {pages : Option String}
    {env : RenderEnv} {saved : List String} {l : List Nat}
    (hres : (render pdfPath pages env).result = .ok saved)
    (hparse : parse_pages pages env.pageCount = .ok l) :
    (l.length = 1 → saved = [os_path_join (os_path_splitext pdfPath).1
      (os_path_basename (os_path_splitext pdfPath).1 ++ ".png")])
    ∧ (l.length ≠ 1 → saved = l.map (fun p => os_path_join (os_path_splitext pdfPath).1
      (os_path_basename (os_path_splitext pdfPath).1 ++ "_p" ++ pyFormat02 p ++ ".png")))
    ∧ ∀ q ∈ saved, (fsLookup (render pdfPath pages env).fs q).isSome := by
  obtain ⟨hfile, l', hp', hbody⟩ := render_ok_inv hres
  rw [hp'] at hparse
  injection hparse with hl
  subst hl
  rw [hbody, renderBody_result] at hres
  injection hres with hsaved
  subst hsaved
  rw [writePages_saved]
  refine ⟨?_, ?_, ?_⟩
  · intro h1
    obtain ⟨p, rfl⟩ : ∃ p, l' = [p] := by
      cases l' with
      | nil => simp at h1
      | cons p rest =>
        cases rest with
        | nil => exact ⟨p, rfl⟩
        | cons q r => simp at h1
    simp [out_path]
  · intro h1
    have hso : (l'.length == 1) = false := by
      rw [beq_eq_false_iff_ne]
      exact h1
    rw [hso]
    simp [out_path]
  · intro q hq
    rw [hbody]
    exact renderBody_saved_isSome pdfPath l' env q (by rw [writePages_saved]; exact hq)

theorem claim_C2_witness :
    (([1, 2] : List Nat).length = 1 →
      ["doc/doc_p01.png", "doc/doc_p02.png"] =
        [os_path_join (os_path_splitext "doc.pdf").1
          (os_path_basename (os_path_splitext "doc.pdf").1 ++ ".png")])
    ∧ (([1, 2] : List Nat).length ≠ 1 →
      ["doc/doc_p01.png", "doc/doc_p02.png"] =
        ([1, 2] : List Nat).map (fun p => os_path_join (os_path_splitext "doc.pdf").1
          (os_path_basename (os_path_splitext "doc.pdf").1 ++ "_p" ++ pyFormat02 p ++ ".png")))
    ∧ ∀ q ∈ ["doc/doc_p01.png", "doc/doc_p02.png"],
        (fsLookup (render "doc.pdf" (some "1-2") sampleEnv).fs q).isSome :=
  claim_C2_output_naming
    (by rw [@render_eq_body "doc.pdf" (some "1-2") sampleEnv [1, 2] (by decide)
        (parse_pages_eq_ok (by decide) (by decide) (by decide))]
        decide)
    (parse_pages_eq_ok (by decide) (by decide) (by decide))

/-- C8: a successful export returns one path per selected page, the page
list is in ascending order, and the archived source copy's path is not in
the returned manifest. -/
theorem claim_C8_manifest_pngs_only {pdfPath : String} {pages : Option String}
    {env : RenderEnv} {saved : List String} {l : List Nat}
    (hres : (render pdfPath pages env).result = .ok saved)
    (hparse : parse_pages pages env.pageCount = .ok l) :
    saved = l.map (out_path (l.length == 1) (os_path_splitext pdfPath).1
        (os_path_basename (os_path_splitext pdfPath).1)) ∧
      saved.length = l.length ∧ l.Sorted (· < ·) ∧
      os_path_join (os_path_splitext pdfPath).1
        (os_path_basename (os_path_splitext pdfPath).1 ++ ".pdf") ∉ saved := by
  obtain ⟨hfile, l', hp', hbody⟩ := render_ok_inv hres
  rw [hp'] at hparse
  injection hparse with hl
  subst hl
  rw [hbody, renderBody_result] at hres
  injection hres with hsaved
  subst hsaved
  rw [writePages_saved]
  refine ⟨rfl, List.length_map .., parse_pages_ok_sorted hp', ?_⟩
  intro hmem
  rw [List.mem_map] at hmem
  obtain ⟨p, _, hp⟩ := hmem
  exact out_path_ne_copy _ _ _ p _ _ hp

theorem claim_C8_witness :
    (["doc/doc_p01.png", "doc/doc_p03.png"] : List String) =
        ([1, 3] : List Nat).map (out_path (([1, 3] : List Nat).length == 1)
          (os_path_splitext "doc.pdf").1
          (os_path_basename (os_path_splitext "doc.pdf").1)) ∧
      (["doc/doc_p01.png", "doc/doc_p03.png"] : List String).length =
        ([1, 3] : List Nat).length ∧
      ([1, 3] : List Nat).Sorted (· < ·) ∧
      os_path_join (os_path_splitext "doc.pdf").1
        (os_path_basename (os_path_splitext "doc.pdf").1 ++ ".pdf") ∉
        (["doc/doc_p01.png", "doc/doc_p03.png"] : List String) :=
  claim_C8_manifest_pngs_only
    (by rw [@render_eq_body "doc.pdf" (some "1,3") sampleEnv [1, 3] (by decide)
        (parse_pages_eq_ok (by decide) (by decide) (by decide))]
        decide)
    (parse_pages_eq_ok (by decide) (by decide) (by decide))

/-- C4: after a successful export of a source path with a genuine
extension, (a) if a file already sits at the archive path
`<folder>/<basename>.pdf`, its content is untouched (the copy is skipped,
not overwritten); (b) if the archive path is absent (also not a
directory), the first run writes the source bytes there, and a second run
on the same source leaves the archived copy byte-identical to the
original. -/
theorem claim_C4_archive_idempotent {pdfPath : String} {pages : Option String}
    {env : RenderEnv} {saved : List String}
    (hext : (os_path_splitext pdfPath).2 ≠ "")
    (hres : (render pdfPath pages env).result = .ok saved) :
    (∀ c, fsLookup env.fs (os_path_join (os_path_splitext pdfPath).1
        (os_path_basename (os_path_splitext pdfPath).1 ++ ".pdf")) = some c →
      fsLookup (render pdfPath pages env).fs
        (os_path_join (os_path_splitext pdfPath).1
          (os_path_basename (os_path_splitext pdfPath).1 ++ ".pdf")) = some c)
    ∧ (fsLookup env.fs (os_path_join (os_path_splitext pdfPath).1
        (os_path_basename (os_path_splitext pdfPath).1 ++ ".pdf")) = none →
      env.dirs.contains (os_path_join (os_path_splitext pdfPath).1
        (os_path_basename (os_path_splitext pdfPath).1 ++ ".pdf")) = false →
      fsLookup (render pdfPath pages env).fs
        (os_path_join (os_path_splitext pdfPath).1
          (os_path_basename (os_path_splitext pdfPath).1 ++ ".pdf")) =
        fsLookup env.fs pdfPath
      ∧ fsLookup (render pdfPath pages
          ⟨(render pdfPath pages env).fs, (render pdfPath pages env).dirs,
            env.pageCount, env.pngBytes⟩).fs
          (os_path_join (os_path_splitext pdfPath).1
            (os_path_basename (os_path_splitext pdfPath).1 ++ ".pdf")) =
        fsLookup env.fs pdfPath) := by
  obtain ⟨hfile, l, hp, hbody⟩ := render_ok_inv hres
  obtain ⟨b₀, hb₀⟩ : ∃ b, fsLookup env.fs pdfPath = some b := by
    cases hv : fsLookup env.fs pdfPath
    · rw [hv] at hfile
      simp at hfile
    · exact ⟨_, rfl⟩
  constructor
  · intro c hc
    rw [hbody]
    exact renderBody_copy_present hc
  · intro habs hdir
    have hfirst : fsLookup (render pdfPath pages env).fs
        (os_path_join (os_path_splitext pdfPath).1
          (os_path_basename (os_path_splitext pdfPath).1 ++ ".pdf")) =
        fsLookup env.fs pdfPath := by
      rw [hbody]
      exact renderBody_copy_absent hext habs hdir
    refine ⟨hfirst, ?_⟩
    have hfile₂ : (fsLookup ((⟨(render pdfPath pages env).fs,
        (render pdfPath pages env).dirs, env.pageCount, env.pngBytes⟩ :
        RenderEnv)).fs pdfPath).isNone = false := by
      show (fsLookup (render pdfPath pages env).fs pdfPath).isNone = false
      rw [hbody, renderBody_fs_pdf hext, hb₀]
      rfl
    have hbody₂ := render_eq_body hfile₂ (hp :
      parse_pages pages ((⟨(render pdfPath pages env).fs,
        (render pdfPath pages env).dirs, env.pageCount, env.pngBytes⟩ :
        RenderEnv)).pageCount = .ok l)
    rw [hbody₂]
    have hc₂ : fsLookup ((⟨(render pdfPath pages env).fs,
        (render pdfPath pages env).dirs, env.pageCount, env.pngBytes⟩ :
        RenderEnv)).fs
        (os_path_join (os_path_splitext pdfPath).1
          (os_path_basename (os_path_splitext pdfPath).1 ++ ".pdf")) = some b₀ := by
      show fsLookup (render pdfPath pages env).fs _ = some b₀
      rw [hfirst, hb₀]
    rw [hb₀]
    exact renderBody_copy_present hc₂

theorem claim_C4_witness :
    (∀ c, fsLookup sampleEnv.fs (os_path_join (os_path_splitext "doc.pdf").1
        (os_path_basename (os_path_splitext "doc.pdf").1 ++ ".pdf")) = some c →
      fsLookup (render "doc.pdf" (some "1-2") sampleEnv).fs
        (os_path_join (os_path_splitext "doc.pdf").1
          (os_path_basename (os_path_splitext "doc.pdf").1 ++ ".pdf")) = some c)
    ∧ (fsLookup sampleEnv.fs (os_path_join (os_path_splitext "doc.pdf").1
        (os_path_basename (os_path_splitext "doc.pdf").1 ++ ".pdf")) = none →
      sampleEnv.dirs.contains (os_path_join (os_path_splitext "doc.pdf").1
        (os_path_basename (os_path_splitext "doc.pdf").1 ++ ".pdf")) = false →
      fsLookup (render "doc.pdf" (some "1-2") sampleEnv).fs
        (os_path_join (os_path_splitext "doc.pdf").1
          (os_path_basename (os_path_splitext "doc.pdf").1 ++ ".pdf")) =
        fsLookup sampleEnv.fs "doc.pdf"
      ∧ fsLookup (render "doc.pdf" (some "1-2")
          ⟨(render "doc.pdf" (some "1-2") sampleEnv).fs,
            (render "doc.pdf" (some "1-2") sampleEnv).dirs,
            sampleEnv.pageCount, sampleEnv.pngBytes⟩).fs
          (os_path_join (os_path_splitext "doc.pdf").1
            (os_path_basename (os_path_splitext "doc.pdf").1 ++ ".pdf")) =
        fsLookup sampleEnv.fs "doc.pdf") :=
  claim_C4_archive_idempotent (by decide)
    ((by
        rw [@render_eq_body "doc.pdf" (some "1-2") sampleEnv [1, 2] (by decide)
          (parse_pages_eq_ok (by decide) (by decide) (by decide))]
        decide) :
      (render "doc.pdf" (some "1-2") sampleEnv).result =
        .ok ["doc/doc_p01.png", "doc/doc_p02.png"])

end RenderPy


